import Mathlib

/-!
Shallow embedding of the `raytracing-rs` renderer core (src/vec3.rs, src/ray.rs,
src/material.rs, src/hittable.rs, src/main.rs).

Modelling conventions:
* Rust `f64` scalars are modelled as real numbers (`ℝ`); `f64::sqrt` is `Real.sqrt`.
* The interval bounds `t_min`, `t_max` of the `Hittable::hit` contract are modelled
  as extended reals (`EReal`) so that the source's `f64::INFINITY` upper bound in
  `ray_color` is `⊤`.
* The mutable random generator (`rand::RngCore`) is modelled as a pair of streams
  with cursors: a stream of results of the `random_in_unit_sphere` rejection loop
  (which the source runs without an iteration cap, terminating with probability 1)
  and a stream of results of `rng.random::<f64>()` (uniform draws in `[0,1)`).
  The rejection loop itself is also embedded, fuel-bounded, as
  `randomInUnitSphereLoop`, together with a lemma tying its successful outputs to
  points of squared length `< 1`.
-/

noncomputable section

namespace RT

/-- `Vec3` from src/vec3.rs: three `f64` components. -/
structure Vec3 where
  x : ℝ
  y : ℝ
  z : ℝ

namespace Vec3

/-- Unary negation `-v`. -/
instance : Neg Vec3 := ⟨fun v => ⟨-v.x, -v.y, -v.z⟩⟩

/-- Componentwise `v + v`. -/
instance : Add Vec3 := ⟨fun u v => ⟨u.x + v.x, u.y + v.y, u.z + v.z⟩⟩

/-- Componentwise `v - v`. -/
instance : Sub Vec3 := ⟨fun u v => ⟨u.x - v.x, u.y - v.y, u.z - v.z⟩⟩

/-- Componentwise `v * v` (the `Mul` impl in src/vec3.rs). -/
instance : Mul Vec3 := ⟨fun u v => ⟨u.x * v.x, u.y * v.y, u.z * v.z⟩⟩

/-- Scalar multiplication `t * v` / `v * t` from src/vec3.rs. -/
instance : SMul ℝ Vec3 := ⟨fun t v => ⟨v.x * t, v.y * t, v.z * t⟩⟩

/-- Scalar division `v / t` from src/vec3.rs: multiply each component by `1/t`. -/
def divScalar (v : Vec3) (t : ℝ) : Vec3 :=
  let inv := 1 / t
  ⟨v.x * inv, v.y * inv, v.z * inv⟩

/-- `Vec3::dot`. -/
def dot (u v : Vec3) : ℝ := u.x * v.x + u.y * v.y + u.z * v.z

/-- `Vec3::length_squared`. -/
def length_squared (v : Vec3) : ℝ := v.x * v.x + v.y * v.y + v.z * v.z

/-- `Vec3::length`. -/
def length (v : Vec3) : ℝ := Real.sqrt v.length_squared

/-- `Vec3::unit_vector`. -/
def unit_vector (v : Vec3) : Vec3 := v.divScalar v.length

theorem neg_def (v : Vec3) : -v = ⟨-v.x, -v.y, -v.z⟩ := rfl
theorem add_def (u v : Vec3) : u + v = ⟨u.x + v.x, u.y + v.y, u.z + v.z⟩ := rfl
theorem sub_def (u v : Vec3) : u - v = ⟨u.x - v.x, u.y - v.y, u.z - v.z⟩ := rfl
theorem mul_def (u v : Vec3) : u * v = ⟨u.x * v.x, u.y * v.y, u.z * v.z⟩ := rfl
theorem smul_def (t : ℝ) (v : Vec3) : t • v = ⟨v.x * t, v.y * t, v.z * t⟩ := rfl

/-- The dot product of a vector with itself is its squared length, which is
nonnegative. -/
theorem dot_self_nonneg (v : Vec3) : 0 ≤ dot v v := by
  unfold dot
  have hx := mul_self_nonneg v.x
  have hy := mul_self_nonneg v.y
  have hz := mul_self_nonneg v.z
  linarith

/-- If `dot v v = 0` then `v` is the zero vector. -/
theorem eq_zero_of_dot_self_eq_zero {v : Vec3} (h : dot v v = 0) :
    v = ⟨0, 0, 0⟩ := by
  unfold dot at h
  have hx : v.x = 0 := by nlinarith [sq_nonneg v.x, sq_nonneg v.y, sq_nonneg v.z]
  have hy : v.y = 0 := by nlinarith [sq_nonneg v.x, sq_nonneg v.y, sq_nonneg v.z]
  have hz : v.z = 0 := by nlinarith [sq_nonneg v.x, sq_nonneg v.y, sq_nonneg v.z]
  cases v; simp_all

end Vec3

/-- `Point3` alias from src/vec3.rs. -/
abbrev Point3 := Vec3

/-- `Color` alias from src/vec3.rs. -/
abbrev Color := Vec3

/-- `Ray` from src/ray.rs. -/
structure Ray where
  orig : Point3
  dir : Vec3

namespace Ray

/-- `Ray::new`. -/
def new (origin : Point3) (direction : Vec3) : Ray := ⟨origin, direction⟩

/-- `Ray::origin`. -/
def origin (r : Ray) : Point3 := r.orig

/-- `Ray::direction`. -/
def direction (r : Ray) : Vec3 := r.dir

/-- `Ray::at`: `orig + t * dir` (named `at'` because `at` is a Lean keyword). -/
def at' (r : Ray) (t : ℝ) : Point3 := r.orig + t • r.dir

end Ray

/-- The closed set of material variants (src/material.rs: `Lambertian`,
`Metal`, `Dielectric`), represented as a sum type as suggested by the spec's
design notes for the `dyn Material` trait objects. -/
inductive Material where
  | lambertian (albedo : Vec3)
  | metal (albedo : Vec3) (fuzz : ℝ)
  | dielectric (ref_idx : ℝ)

/-- Model of the mutable random generator: a stream of outputs of the
`random_in_unit_sphere` rejection loop, a stream of `rng.random::<f64>()`
uniform draws, and cursors into each. -/
structure Rng where
  sphereSeq : ℕ → Vec3
  unifSeq : ℕ → ℝ
  sIdx : ℕ
  uIdx : ℕ

namespace Rng

/-- Draw the next `random_in_unit_sphere` sample. -/
def nextSphere (g : Rng) : Vec3 × Rng :=
  (g.sphereSeq g.sIdx, ⟨g.sphereSeq, g.unifSeq, g.sIdx + 1, g.uIdx⟩)

/-- Draw the next `rng.random::<f64>()` value (uniform in `[0,1)`). -/
def nextUnif (g : Rng) : ℝ × Rng :=
  (g.unifSeq g.uIdx, ⟨g.sphereSeq, g.unifSeq, g.sIdx, g.uIdx + 1⟩)

end Rng

/-- `random_in_unit_sphere` from src/material.rs, at the level of the `Rng`
model: the rejection loop's result is the next element of the sphere-sample
stream. -/
def random_in_unit_sphere (g : Rng) : Vec3 × Rng := g.nextSphere

/-- Fuel-bounded embedding of the raw rejection loop in
`random_in_unit_sphere` (src/material.rs): `raw` is the stream of
`rng.random_range(-1.0..1.0)` draws, `i` the cursor; each iteration consumes
three draws and accepts the point iff its squared length is `< 1`. The source
loop has no fuel parameter; it runs until acceptance (probability-1
termination). -/
def randomInUnitSphereLoop (raw : ℕ → ℝ) : ℕ → ℕ → Option (Vec3 × ℕ)
  | 0, _ => none
  | fuel + 1, i =>
    let p : Vec3 := ⟨raw i, raw (i + 1), raw (i + 2)⟩
    if p.length_squared < 1 then some (p, i + 3) else randomInUnitSphereLoop raw fuel (i + 3)

/-- Whenever the rejection loop accepts, the accepted point has squared
length `< 1`, i.e. lies strictly inside the unit ball. -/
theorem randomInUnitSphereLoop_lt_one (raw : ℕ → ℝ) :
    ∀ fuel i p j, randomInUnitSphereLoop raw fuel i = some (p, j) →
      p.length_squared < 1 := by
  intro fuel
  induction fuel with
  | zero => intro i p j h; simp [randomInUnitSphereLoop] at h
  | succ n ih =>
    intro i p j h
    unfold randomInUnitSphereLoop at h
    by_cases hc : (Vec3.mk (raw i) (raw (i + 1)) (raw (i + 2))).length_squared < 1
    · simp only [hc, if_true] at h
      obtain ⟨hp, _⟩ := Prod.mk.injEq .. ▸ (Option.some.injEq .. ▸ h)
      exact hp ▸ hc
    · simp only [hc, if_false] at h
      exact ih _ p j h

/-- `reflect` from src/material.rs: `v - 2 * dot(v,n) * n`. -/
def reflect (v n : Vec3) : Vec3 := v - (2 * Vec3.dot v n) • n

/-- `refract` from src/material.rs: attempt Snell refraction; `none` when the
discriminant is not strictly positive (total internal reflection). -/
def refract (v n : Vec3) (ni_over_nt : ℝ) : Option Vec3 :=
  let uv := Vec3.unit_vector v
  let dt := Vec3.dot uv n
  let discriminant := 1 - ni_over_nt * ni_over_nt * (1 - dt * dt)
  if 0 < discriminant then
    some (ni_over_nt • (uv - dt • n) - Real.sqrt discriminant • n)
  else
    none

/-- `schlick` from src/material.rs. -/
def schlick (cosine ref_idx : ℝ) : ℝ :=
  let r0 := (1 - ref_idx) / (1 + ref_idx)
  let r0sq := r0 * r0
  r0sq + (1 - r0sq) * (1 - cosine) ^ 5

/-- `HitRecord` from src/hittable.rs. -/
structure HitRecord where
  t : ℝ
  point : Point3
  normal : Vec3
  material : Material

/-- `Lambertian::scatter` (impl Material, src/material.rs). -/
def Lambertian.scatter (albedo : Vec3) (_ray_in : Ray) (rec : HitRecord) (g : Rng) :
    Option (Vec3 × Ray) × Rng :=
  let pg := random_in_unit_sphere g
  let target := rec.point + rec.normal + pg.1
  let scattered := Ray.new rec.point (target - rec.point)
  let attenuation := albedo
  (some (attenuation, scattered), pg.2)

/-- `Metal::new` (src/material.rs): the stored fuzz is `fuzziness.max(0.0)` when
`fuzziness < 1.0`, and `1.0` otherwise. -/
def Metal.new (albedo : Vec3) (fuzziness : ℝ) : Material :=
  .metal albedo (if fuzziness < 1 then max fuzziness 0 else 1)

/-- `Metal::scatter` (impl Material, src/material.rs). -/
def Metal.scatter (albedo : Vec3) (fuzz : ℝ) (ray_in : Ray) (rec : HitRecord) (g : Rng) :
    Option (Vec3 × Ray) × Rng :=
  let reflected := reflect (Vec3.unit_vector ray_in.direction) rec.normal
  let pg := random_in_unit_sphere g
  let scattered := Ray.new rec.point (reflected + fuzz • pg.1)
  let attenuation := albedo
  if 0 < Vec3.dot scattered.direction rec.normal then
    (some (attenuation, scattered), pg.2)
  else
    (none, pg.2)

/-- The `(outward_normal, ni_over_nt, cosine)` triple computed by the
entering/exiting branch at the start of `Dielectric::scatter`
(src/material.rs). -/
def dielectricSetup (ref_idx : ℝ) (ray_in : Ray) (rec : HitRecord) : Vec3 × ℝ × ℝ :=
  if 0 < Vec3.dot ray_in.direction rec.normal then
    (-rec.normal, ref_idx,
      ref_idx * Vec3.dot ray_in.direction rec.normal / ray_in.direction.length)
  else
    (rec.normal, 1 / ref_idx,
      -Vec3.dot ray_in.direction rec.normal / ray_in.direction.length)

/-- `Dielectric::scatter` (impl Material, src/material.rs). The source's
`refract(...).unwrap()` in the transmit branch panics if `refract` returns
`None`; that (unreachable) panic is modelled by the `(none, _)` result of the
final match arm. -/
def Dielectric.scatter (ref_idx : ℝ) (ray_in : Ray) (rec : HitRecord) (g : Rng) :
    Option (Vec3 × Ray) × Rng :=
  let attenuation : Vec3 := ⟨1, 1, 1⟩
  let reflected := reflect ray_in.direction rec.normal
  let setup := dielectricSetup ref_idx ray_in rec
  let outward_normal := setup.1
  let ni_over_nt := setup.2.1
  let cosine := setup.2.2
  let reflect_prob :=
    match refract ray_in.direction outward_normal ni_over_nt with
    | some _ => max (min (schlick cosine ref_idx) 1) 0
    | none => 1
  let ug := g.nextUnif
  if ug.1 < reflect_prob then
    (some (attenuation, Ray.new rec.point reflected), ug.2)
  else
    match refract ray_in.direction outward_normal ni_over_nt with
    | some refracted => (some (attenuation, Ray.new rec.point refracted), ug.2)
    | none => (none, ug.2)

/-- `Material::scatter` dynamic dispatch over the three material variants. -/
def Material.scatter : Material → Ray → HitRecord → Rng → Option (Vec3 × Ray) × Rng
  | .lambertian albedo => Lambertian.scatter albedo
  | .metal albedo fuzz => Metal.scatter albedo fuzz
  | .dielectric ref_idx => Dielectric.scatter ref_idx

/-- `Sphere` from src/hittable.rs. -/
structure Sphere where
  center : Point3
  radius : ℝ
  material : Material

/-- `Sphere::new`. -/
def Sphere.new (center : Point3) (radius : ℝ) (material : Material) : Sphere :=
  ⟨center, radius, material⟩

/-- The `oc = r.origin() - self.center` subterm of `Sphere::hit`. -/
def Sphere.oc (s : Sphere) (r : Ray) : Vec3 := r.origin - s.center

/-- The `a = dot(direction, direction)` coefficient of `Sphere::hit`. -/
def Sphere.aCoef (_s : Sphere) (r : Ray) : ℝ := Vec3.dot r.direction r.direction

/-- The `half_b = dot(oc, direction)` coefficient of `Sphere::hit`. -/
def Sphere.halfB (s : Sphere) (r : Ray) : ℝ := Vec3.dot (s.oc r) r.direction

/-- The `c = dot(oc, oc) - radius * radius` coefficient of `Sphere::hit`. -/
def Sphere.cCoef (s : Sphere) (r : Ray) : ℝ :=
  Vec3.dot (s.oc r) (s.oc r) - s.radius * s.radius

/-- The `discriminant = half_b * half_b - a * c` of `Sphere::hit`. -/
def Sphere.disc (s : Sphere) (r : Ray) : ℝ :=
  s.halfB r * s.halfB r - s.aCoef r * s.cCoef r

/-- The smaller quadratic root `(-half_b - sqrt(discriminant)) / a` tested
first by `Sphere::hit`. -/
def Sphere.root₁ (s : Sphere) (r : Ray) : ℝ :=
  (-s.halfB r - Real.sqrt (s.disc r)) / s.aCoef r

/-- The larger quadratic root `(-half_b + sqrt(discriminant)) / a` tested
second by `Sphere::hit`. -/
def Sphere.root₂ (s : Sphere) (r : Ray) : ℝ :=
  (-s.halfB r + Real.sqrt (s.disc r)) / s.aCoef r

/-- The `HitRecord` built by `Sphere::hit` for an accepted root: point
`ray.at(root)`, normal `(point - center) / radius`. -/
def Sphere.record (s : Sphere) (r : Ray) (root : ℝ) : HitRecord :=
  ⟨root, r.at' root, (r.at' root - s.center).divScalar s.radius, s.material⟩

/-- `Sphere::hit` (impl Hittable, src/hittable.rs). Interval bounds are
extended reals so that the `f64::INFINITY` upper bound used by `ray_color` is
`⊤`. A root is accepted only strictly inside `(t_min, t_max)`; the smaller
root is tested first; when the discriminant is not strictly positive there is
no hit. -/
def Sphere.hit (s : Sphere) (r : Ray) (t_min t_max : EReal) : Option HitRecord :=
  if 0 < s.disc r then
    if t_min < (s.root₁ r : ℝ) ∧ ((s.root₁ r : ℝ) : EReal) < t_max then
      some (s.record r (s.root₁ r))
    else if t_min < (s.root₂ r : ℝ) ∧ ((s.root₂ r : ℝ) : EReal) < t_max then
      some (s.record r (s.root₂ r))
    else
      none
  else
    none

/-- The closed set of `Hittable` implementors (src/hittable.rs: `Sphere` and
`HittableList`), as a sum type per the spec's design notes on trait objects. -/
inductive Hittable where
  | sphere (s : Sphere)
  | list (objs : List Hittable)

mutual

/-- `Hittable::hit` dynamic dispatch (src/hittable.rs). -/
def Hittable.hit : Hittable → Ray → EReal → EReal → Option HitRecord
  | .sphere s, r, t_min, t_max => s.hit r t_min t_max
  | .list objs, r, t_min, t_max => hitLoop objs r t_min none t_max

/-- The loop body of `HittableList::hit` (src/hittable.rs): scan members in
order, keeping the latest accepted record in `hit_rec` and shrinking the
upper bound `closest_so_far` to its `t`. -/
def hitLoop : List Hittable → Ray → EReal → Option HitRecord → EReal → Option HitRecord
  | [], _, _, hit_rec, _ => hit_rec
  | obj :: rest, r, t_min, hit_rec, closest_so_far =>
    match obj.hit r t_min closest_so_far with
    | some rec => hitLoop rest r t_min (some rec) (rec.t : ℝ)
    | none => hitLoop rest r t_min hit_rec closest_so_far

end

/-- `HittableList::hit` (impl Hittable, src/hittable.rs): the scan starting
from no record with `closest_so_far = t_max`. -/
def HittableList.hit (objects : List Hittable) (r : Ray) (t_min t_max : EReal) :
    Option HitRecord :=
  hitLoop objects r t_min none t_max

/-- Accumulator-free restatement of the `HittableList::hit` scan, used as a
proof vehicle: query the head on the full interval; on a hit, rescan the tail
against the shrunk upper bound and prefer any strictly closer tail hit. It is
proved equal to `hitLoop` in `hitLoop_eq_hitRec`. -/
def hitRec : List Hittable → Ray → EReal → EReal → Option HitRecord
  | [], _, _, _ => none
  | obj :: rest, r, t_min, t_max =>
    match obj.hit r t_min t_max with
    | some rec =>
      match hitRec rest r t_min (rec.t : ℝ) with
      | some rec' => some rec'
      | none => some rec
    | none => hitRec rest r t_min t_max

/-- Spec-side binary selection: of an earlier candidate `cand` and a later
accumulated result `acc`, keep the one with the smaller `t`, the earlier one
winning ties. -/
def selectCloser (cand acc : Option HitRecord) : Option HitRecord :=
  match cand, acc with
  | none, r => r
  | some a, none => some a
  | some a, some b => if b.t < a.t then some b else some a

/-- Spec-side selector (from the spec's words for `HittableList.hit`): among
the member objects' individual hit results, keep the record with the smallest
ray parameter `t` — the earliest member winning ties — or `none` when no
member is hit. -/
def selectClosest : List (Option HitRecord) → Option HitRecord
  | [] => none
  | cand :: rest => selectCloser cand (selectClosest rest)

/-- The `WHITE` constant from src/main.rs. -/
def WHITE : Color := ⟨1, 1, 1⟩

/-- The `BLACK` constant from src/main.rs. -/
def BLACK : Color := ⟨0, 0, 0⟩

/-- The `BLUE` constant from src/main.rs. -/
def BLUE : Color := ⟨0.5, 0.7, 1⟩

/-- `ray_color` from src/main.rs. The depth counter is an `i32`, modelled as
`ℤ`; the scene query upper bound `f64::INFINITY` is `⊤ : EReal`. -/
def ray_color (ray : Ray) (world : List Hittable) (depth : ℤ) (g : Rng) : Color × Rng :=
  if 50 ≤ depth then
    (BLACK, g)
  else
    match HittableList.hit world ray ((0.001 : ℝ) : EReal) ⊤ with
    | some rec =>
      match Material.scatter rec.material ray rec g with
      | (some (attenuation, scattered), g') =>
        let cg := ray_color scattered world (depth + 1) g'
        (attenuation * cg.1, cg.2)
      | (none, g') => (BLACK, g')
    | none =>
      let unit_dir := Vec3.unit_vector ray.direction
      let t := 0.5 * (unit_dir.y + 1)
      ((1 - t) • WHITE + t • BLUE, g)
termination_by (50 - depth).toNat
decreasing_by omega

/-- Fuel-indexed variant of `ray_color`: identical body, but recursion
consumes one unit of fuel per bounce. `ray_colorFuel (50 - depth).toNat`
agrees with `ray_color depth`, which bounds the recursion nesting of any
initial call at depth 0 by 50. -/
def rayColorFuel : ℕ → Ray → List Hittable → ℤ → Rng → Color × Rng
  | 0, _, _, _, g => (BLACK, g)
  | fuel + 1, ray, world, depth, g =>
    if 50 ≤ depth then
      (BLACK, g)
    else
      match HittableList.hit world ray ((0.001 : ℝ) : EReal) ⊤ with
      | some rec =>
        match Material.scatter rec.material ray rec g with
        | (some (attenuation, scattered), g') =>
          let cg := rayColorFuel fuel scattered world (depth + 1) g'
          (attenuation * cg.1, cg.2)
        | (none, g') => (BLACK, g')
      | none =>
        let unit_dir := Vec3.unit_vector ray.direction
        let t := 0.5 * (unit_dir.y + 1)
        ((1 - t) • WHITE + t • BLUE, g)

/-- One iteration of the grid loop body in `random_scene` (src/main.rs) for
cell `(a, b)`: draw `choose_mat` and the center jitters, and create a small
sphere (diffuse, metal or glass according to `choose_mat`) only when the
center is farther than `0.9` from the point `(4, 0.2, 0)`. -/
def gridStep (a b : ℤ) (g : Rng) : Option Sphere × Rng :=
  let cg := g.nextUnif
  let choose_mat := cg.1
  let xg := cg.2.nextUnif
  let zg := xg.2.nextUnif
  let center : Point3 := ⟨(a : ℝ) + 0.9 * xg.1, 0.2, (b : ℝ) + 0.9 * zg.1⟩
  if 0.9 < (center - (⟨4, 0.2, 0⟩ : Point3)).length then
    if choose_mat < 0.8 then
      let r1 := zg.2.nextUnif
      let r2 := r1.2.nextUnif
      let r3 := r2.2.nextUnif
      let r4 := r3.2.nextUnif
      let r5 := r4.2.nextUnif
      let r6 := r5.2.nextUnif
      let albedo : Vec3 := ⟨r1.1 * r2.1, r3.1 * r4.1, r5.1 * r6.1⟩
      (some (Sphere.new center 0.2 (.lambertian albedo)), r6.2)
    else if choose_mat < 0.95 then
      let r1 := zg.2.nextUnif
      let r2 := r1.2.nextUnif
      let r3 := r2.2.nextUnif
      let albedo : Vec3 := ⟨0.5 * (1 + r1.1), 0.5 * (1 + r2.1), 0.5 * (1 + r3.1)⟩
      (some (Sphere.new center 0.2 (Metal.new albedo 0.1)), r3.2)
    else
      (some (Sphere.new center 0.2 (.dielectric 1.5)), zg.2)
  else
    (none, zg.2)

/-- The grid cells `(a, b)` for `a in -11..11`, `b in -11..11`, in loop order
(`a` outer, `b` inner). -/
def gridCells : List (ℤ × ℤ) :=
  (List.range 22).flatMap fun i =>
    (List.range 22).map fun j => ((i : ℤ) - 11, (j : ℤ) - 11)

/-- Run `gridStep` over a list of cells, threading the generator and
collecting the created small spheres in order. -/
def buildGrid : List (ℤ × ℤ) → Rng → List Sphere × Rng
  | [], g => ([], g)
  | ab :: rest, g =>
    let sg := gridStep ab.1 ab.2 g
    let tail := buildGrid rest sg.2
    (match sg.1 with
     | some s => s :: tail.1
     | none => tail.1, tail.2)

/-- `random_scene` from src/main.rs: ground sphere, then the grid of small
spheres, then the three fixed large spheres (glass, diffuse, metal). -/
def random_scene (g : Rng) : List Hittable :=
  let ground := Sphere.new ⟨0, -1000, 0⟩ 1000 (.lambertian ⟨0.5, 0.5, 0.5⟩)
  let grid := buildGrid gridCells g
  Hittable.sphere ground ::
    (grid.1.map Hittable.sphere ++
      [Hittable.sphere (Sphere.new ⟨0, 1, 0⟩ 1 (.dielectric 1.5)),
       Hittable.sphere (Sphere.new ⟨-4, 1, 0⟩ 1 (.lambertian ⟨0.4, 0.2, 0.1⟩)),
       Hittable.sphere (Sphere.new ⟨4, 1, 0⟩ 1 (Metal.new ⟨0.7, 0.6, 0.5⟩ 0))])

/-- The three hero sphere centers of `random_scene` (src/main.rs): glass,
diffuse, metal. -/
def heroCenters : List Point3 := [⟨0, 1, 0⟩, ⟨-4, 1, 0⟩, ⟨4, 1, 0⟩]

/-- The dot product with the zero vector vanishes. -/
theorem Vec3.dot_zero_left (v : Vec3) : Vec3.dot ⟨0, 0, 0⟩ v = 0 := by
  simp [Vec3.dot]

/-- A strictly positive discriminant forces `a = dot(direction, direction)`
to be strictly positive: `a` is a sum of squares, and if it vanished the
direction would be the zero vector, making `half_b` and hence the
discriminant vanish as well. -/
theorem Sphere.aCoef_pos {s : Sphere} {r : Ray} (h : 0 < s.disc r) : 0 < s.aCoef r := by
  rcases (Vec3.dot_self_nonneg r.direction).lt_or_eq with hlt | heq
  · exact hlt
  · exfalso
    have hdir : r.direction = ⟨0, 0, 0⟩ := Vec3.eq_zero_of_dot_self_eq_zero heq.symm
    have hhb : s.halfB r = 0 := by
      unfold Sphere.halfB
      rw [hdir]
      simp [Vec3.dot]
    have : s.disc r = 0 := by
      unfold Sphere.disc Sphere.aCoef at *
      rw [hhb, ← heq]
      ring
    exact absurd (this ▸ h) (lt_irrefl 0)

/-- The smaller root tested first is at most the larger root. -/
theorem Sphere.root₁_le_root₂ {s : Sphere} {r : Ray} (h : 0 < s.disc r) :
    s.root₁ r ≤ s.root₂ r := by
  have ha := Sphere.aCoef_pos h
  have hs : 0 ≤ Real.sqrt (s.disc r) := Real.sqrt_nonneg _
  unfold Sphere.root₁ Sphere.root₂
  exact (div_le_div_iff_of_pos_right ha).mpr (by linarith)

/-- The `t` stored in the record built for a root is that root. -/
theorem Sphere.record_t (s : Sphere) (r : Ray) (root : ℝ) :
    (s.record r root).t = root := rfl

/-- Bundle of interval properties of a `hit` function, shared by `Sphere::hit`
and `HittableList::hit`: (1) a returned record lies strictly inside the open
query interval; (2) a hit strictly below a smaller upper bound survives
shrinking the bound; (3) a miss stays a miss under shrinking; (4) shrinking
the bound to at most the returned `t` turns the hit into a miss; (5) a hit
found under a smaller bound is also found under a larger one. -/
def GoodHit (hit : Ray → EReal → EReal → Option HitRecord) : Prop :=
  (∀ r t_min t_max rec, hit r t_min t_max = some rec →
    t_min < (rec.t : EReal) ∧ (rec.t : EReal) < t_max) ∧
  (∀ r t_min t_max t_max' rec, t_max' ≤ t_max → hit r t_min t_max = some rec →
    (rec.t : EReal) < t_max' → hit r t_min t_max' = some rec) ∧
  (∀ r t_min t_max t_max', t_max' ≤ t_max → hit r t_min t_max = none →
    hit r t_min t_max' = none) ∧
  (∀ r t_min t_max t_max' rec, hit r t_min t_max = some rec →
    t_max' ≤ (rec.t : EReal) → hit r t_min t_max' = none) ∧
  (∀ r t_min t_max t_max' rec, t_max' ≤ t_max → hit r t_min t_max' = some rec →
    hit r t_min t_max = some rec)

/-- `Sphere::hit` satisfies all five interval properties. -/
theorem sphere_goodHit (s : Sphere) : GoodHit (s.hit) := by
  refine ⟨?_, ?_, ?_, ?_, ?_⟩
  · intro r t_min t_max rec h
    unfold Sphere.hit at h
    split_ifs at h with hd h1 h2
    · cases h; exact h1
    · cases h; exact h2
  · intro r t_min t_max t_max' rec hle h hlt
    unfold Sphere.hit at h ⊢
    split_ifs at h with hd h1 h2
    · cases h
      rw [if_pos hd, if_pos ⟨h1.1, hlt⟩]
    · cases h
      have hn1 : ¬(t_min < (s.root₁ r : EReal) ∧ (s.root₁ r : EReal) < t_max') :=
        fun hcon => h1 ⟨hcon.1, lt_of_lt_of_le hcon.2 hle⟩
      rw [if_pos hd, if_neg hn1, if_pos ⟨h2.1, hlt⟩]
  · intro r t_min t_max t_max' hle h
    unfold Sphere.hit at h ⊢
    split_ifs at h with hd h1 h2
    · have hn1 : ¬(t_min < (s.root₁ r : EReal) ∧ (s.root₁ r : EReal) < t_max') :=
        fun hcon => h1 ⟨hcon.1, lt_of_lt_of_le hcon.2 hle⟩
      have hn2 : ¬(t_min < (s.root₂ r : EReal) ∧ (s.root₂ r : EReal) < t_max') :=
        fun hcon => h2 ⟨hcon.1, lt_of_lt_of_le hcon.2 hle⟩
      rw [if_pos hd, if_neg hn1, if_neg hn2]
    · rw [if_neg hd]
  · intro r t_min t_max t_max' rec h hle
    unfold Sphere.hit at h ⊢
    split_ifs at h with hd h1 h2
    · cases h
      rw [Sphere.record_t] at hle
      have hord : ((s.root₁ r : ℝ) : EReal) ≤ (s.root₂ r : ℝ) :=
        EReal.coe_le_coe_iff.mpr (Sphere.root₁_le_root₂ hd)
      have hn1 : ¬(t_min < (s.root₁ r : EReal) ∧ (s.root₁ r : EReal) < t_max') :=
        fun hcon => absurd hcon.2 (not_lt.mpr hle)
      have hn2 : ¬(t_min < (s.root₂ r : EReal) ∧ (s.root₂ r : EReal) < t_max') :=
        fun hcon => absurd hcon.2 (not_lt.mpr (le_trans hle hord))
      rw [if_pos hd, if_neg hn1, if_neg hn2]
    · cases h
      rw [Sphere.record_t] at hle
      have hord : ((s.root₁ r : ℝ) : EReal) ≤ (s.root₂ r : ℝ) :=
        EReal.coe_le_coe_iff.mpr (Sphere.root₁_le_root₂ hd)
      have hn1 : ¬(t_min < (s.root₁ r : EReal) ∧ (s.root₁ r : EReal) < t_max') :=
        fun hcon => h1 ⟨hcon.1, lt_of_le_of_lt hord h2.2⟩
      have hn2 : ¬(t_min < (s.root₂ r : EReal) ∧ (s.root₂ r : EReal) < t_max') :=
        fun hcon => absurd hcon.2 (not_lt.mpr hle)
      rw [if_pos hd, if_neg hn1, if_neg hn2]
  · intro r t_min t_max t_max' rec hle h
    unfold Sphere.hit at h ⊢
    split_ifs at h with hd h1 h2
    · cases h
      rw [if_pos hd, if_pos ⟨h1.1, lt_of_lt_of_le h1.2 hle⟩]
    · cases h
      have hord : ((s.root₁ r : ℝ) : EReal) ≤ (s.root₂ r : ℝ) :=
        EReal.coe_le_coe_iff.mpr (Sphere.root₁_le_root₂ hd)
      have hn1 : ¬(t_min < (s.root₁ r : EReal) ∧ (s.root₁ r : EReal) < t_max) :=
        fun hcon => h1 ⟨hcon.1, lt_of_le_of_lt hord h2.2⟩
      rw [if_pos hd, if_neg hn1, if_pos ⟨h2.1, lt_of_lt_of_le h2.2 hle⟩]

/-- Dispatch equation: `Hittable::hit` on a sphere is `Sphere::hit`. -/
theorem Hittable.hit_sphere (s : Sphere) (r : Ray) (t_min t_max : EReal) :
    Hittable.hit (.sphere s) r t_min t_max = s.hit r t_min t_max := by
  unfold Hittable.hit
  rfl

/-- Dispatch equation: `Hittable::hit` on a list is `HittableList::hit`. -/
theorem Hittable.hit_list (objs : List Hittable) (r : Ray) (t_min t_max : EReal) :
    Hittable.hit (.list objs) r t_min t_max = HittableList.hit objs r t_min t_max := by
  unfold Hittable.hit HittableList.hit
  rfl

/-- Unfolding equation of `hitRec` on a non-empty list. -/
theorem hitRec_cons (obj : Hittable) (rest : List Hittable) (r : Ray)
    (t_min t_max : EReal) :
    hitRec (obj :: rest) r t_min t_max =
      match obj.hit r t_min t_max with
      | some rec =>
        match hitRec rest r t_min ((rec.t : ℝ) : EReal) with
        | some rec' => some rec'
        | none => some rec
      | none => hitRec rest r t_min t_max := by
  conv_lhs => unfold hitRec

/-- Running the `HittableList::hit` scan with an already-accumulated record
`rec` and `closest_so_far = rec.t` returns the rescan of the remaining
objects under the bound `rec.t` when it hits, and `rec` otherwise. -/
theorem hitLoop_some (r : Ray) (t_min : EReal) :
    ∀ (l : List Hittable) (rec : HitRecord),
      hitLoop l r t_min (some rec) ((rec.t : ℝ) : EReal) =
        match hitRec l r t_min ((rec.t : ℝ) : EReal) with
        | some rec' => some rec'
        | none => some rec := by
  intro l
  induction l with
  | nil => intro rec; rfl
  | cons obj rest ih =>
    intro rec
    unfold hitLoop
    rw [hitRec_cons]
    cases hobj : obj.hit r t_min ((rec.t : ℝ) : EReal) with
    | some rec₂ =>
      dsimp only
      rw [ih rec₂]
      cases hitRec rest r t_min ((rec₂.t : ℝ) : EReal) with
      | some rec' => rfl
      | none => rfl
    | none =>
      dsimp only
      rw [ih rec]

/-- The accumulator form of the scan (`hitLoop` started empty) agrees with
its accumulator-free restatement `hitRec`. -/
theorem HittableList.hit_eq_hitRec (objs : List Hittable) (r : Ray) :
    ∀ t_min t_max : EReal,
      HittableList.hit objs r t_min t_max = hitRec objs r t_min t_max := by
  induction objs with
  | nil => intro t_min t_max; rfl
  | cons obj rest ih =>
    intro t_min t_max
    unfold HittableList.hit hitLoop
    rw [hitRec_cons]
    cases hobj : obj.hit r t_min t_max with
    | some rec =>
      dsimp only
      rw [hitLoop_some r t_min rest rec]
    | none =>
      dsimp only
      exact ih t_min t_max

mutual

/-- Every `Hittable` implementor's `hit` satisfies the five interval
properties, by mutual induction with `hitRec_goodHit`. -/
theorem hittable_goodHit : (h : Hittable) → GoodHit h.hit
  | .sphere s => by
    have he : Hittable.hit (.sphere s) = s.hit :=
      funext fun r => funext fun a => funext fun b => Hittable.hit_sphere s r a b
    rw [he]
    exact sphere_goodHit s
  | .list objs => by
    have he : Hittable.hit (.list objs) = hitRec objs :=
      funext fun r => funext fun a => funext fun b =>
        (Hittable.hit_list objs r a b).trans (HittableList.hit_eq_hitRec objs r a b)
    rw [he]
    exact hitRec_goodHit objs

/-- `hitRec` on any object list satisfies the five interval properties. -/
theorem hitRec_goodHit : (l : List Hittable) → GoodHit (hitRec l)
  | [] => by
    refine ⟨?_, ?_, ?_, ?_, ?_⟩
    · intro r t_min t_max rec h; simp [hitRec] at h
    · intro r t_min t_max t_max' rec hle h hlt; simp [hitRec] at h
    · intro r t_min t_max t_max' hle h; rfl
    · intro r t_min t_max t_max' rec h hle; simp [hitRec] at h
    · intro r t_min t_max t_max' rec hle h; simp [hitRec] at h
  | obj :: rest => by
    obtain ⟨o1, o2, o3, o4, o5⟩ := hittable_goodHit obj
    obtain ⟨r1, r2, r3, r4, r5⟩ := hitRec_goodHit rest
    refine ⟨?_, ?_, ?_, ?_, ?_⟩
    · intro r t_min t_max rec h
      rw [hitRec_cons] at h
      cases hobj : obj.hit r t_min t_max with
      | none =>
        rw [hobj] at h
        dsimp only at h
        exact r1 _ _ _ _ h
      | some rec₀ =>
        rw [hobj] at h
        dsimp only at h
        cases hrest : hitRec rest r t_min ((rec₀.t : ℝ) : EReal) with
        | none =>
          rw [hrest] at h
          dsimp only at h
          cases h
          exact o1 _ _ _ _ hobj
        | some rec' =>
          rw [hrest] at h
          dsimp only at h
          cases h
          have hb := r1 _ _ _ _ hrest
          have ho := o1 _ _ _ _ hobj
          exact ⟨hb.1, lt_trans hb.2 ho.2⟩
    · intro r t_min t_max t_max' rec hle h hlt
      rw [hitRec_cons] at h
      rw [hitRec_cons]
      cases hobj : obj.hit r t_min t_max with
      | none =>
        rw [hobj] at h
        dsimp only at h
        rw [o3 _ _ _ _ hle hobj]
        dsimp only
        exact r2 _ _ _ _ _ hle h hlt
      | some rec₀ =>
        rw [hobj] at h
        dsimp only at h
        cases hrest : hitRec rest r t_min ((rec₀.t : ℝ) : EReal) with
        | none =>
          rw [hrest] at h
          dsimp only at h
          cases h
          rw [o2 _ _ _ _ _ hle hobj hlt]
          dsimp only
          rw [hrest]
        | some rec' =>
          rw [hrest] at h
          dsimp only at h
          cases h
          by_cases h₀ : ((rec₀.t : ℝ) : EReal) < t_max'
          · rw [o2 _ _ _ _ _ hle hobj h₀]
            dsimp only
            rw [hrest]
          · rw [o4 _ _ _ _ _ hobj (not_lt.mp h₀)]
            dsimp only
            exact r2 _ _ _ _ _ (not_lt.mp h₀) hrest hlt
    · intro r t_min t_max t_max' hle h
      rw [hitRec_cons] at h
      rw [hitRec_cons]
      cases hobj : obj.hit r t_min t_max with
      | none =>
        rw [hobj] at h
        dsimp only at h
        rw [o3 _ _ _ _ hle hobj]
        dsimp only
        exact r3 _ _ _ _ hle h
      | some rec₀ =>
        rw [hobj] at h
        dsimp only at h
        cases hrest : hitRec rest r t_min ((rec₀.t : ℝ) : EReal) with
        | none =>
          rw [hrest] at h
          dsimp only at h
          exact absurd h (by simp)
        | some rec' =>
          rw [hrest] at h
          dsimp only at h
          exact absurd h (by simp)
    · intro r t_min t_max t_max' rec h hle
      rw [hitRec_cons] at h
      rw [hitRec_cons]
      cases hobj : obj.hit r t_min t_max with
      | none =>
        rw [hobj] at h
        dsimp only at h
        have hbound := r1 _ _ _ _ h
        have hmax : t_max' ≤ t_max := le_trans hle (le_of_lt hbound.2)
        rw [o3 _ _ _ _ hmax hobj]
        dsimp only
        exact r4 _ _ _ _ _ h hle
      | some rec₀ =>
        rw [hobj] at h
        dsimp only at h
        cases hrest : hitRec rest r t_min ((rec₀.t : ℝ) : EReal) with
        | none =>
          rw [hrest] at h
          dsimp only at h
          cases h
          rw [o4 _ _ _ _ _ hobj hle]
          dsimp only
          exact r3 _ _ _ _ hle hrest
        | some rec' =>
          rw [hrest] at h
          dsimp only at h
          cases h
          have hb := r1 _ _ _ _ hrest
          have hle₀ : t_max' ≤ ((rec₀.t : ℝ) : EReal) := le_trans hle (le_of_lt hb.2)
          rw [o4 _ _ _ _ _ hobj hle₀]
          dsimp only
          exact r4 _ _ _ _ _ hrest hle
    · intro r t_min t_max t_max' rec hle h
      rw [hitRec_cons] at h
      rw [hitRec_cons]
      cases hobj' : obj.hit r t_min t_max' with
      | none =>
        rw [hobj'] at h
        dsimp only at h
        cases hobj : obj.hit r t_min t_max with
        | none =>
          dsimp only
          exact r5 _ _ _ _ _ hle h
        | some rec₁ =>
          dsimp only
          have hge : t_max' ≤ ((rec₁.t : ℝ) : EReal) := by
            by_contra hc
            push_neg at hc
            have hcon := o2 _ _ _ _ _ hle hobj hc
            rw [hobj'] at hcon
            exact absurd hcon (by simp)
          rw [r5 _ _ _ _ _ hge h]
      | some rec₀ =>
        rw [hobj'] at h
        dsimp only at h
        rw [o5 _ _ _ _ _ hle hobj']
        dsimp only
        exact h

end

/-- The scan `hitRec` computes exactly the spec-side selection: the smallest-`t`
record among the members' individual full-interval hit results. -/
theorem hitRec_eq_selectClosest (r : Ray) (t_min : EReal) :
    ∀ (l : List Hittable) (t_max : EReal),
      hitRec l r t_min t_max =
        selectClosest (l.map fun o => o.hit r t_min t_max) := by
  intro l
  induction l with
  | nil => intro t_max; rfl
  | cons obj rest ih =>
    intro t_max
    obtain ⟨r1, r2, r3, r4, r5⟩ := hitRec_goodHit rest
    rw [List.map_cons, hitRec_cons]
    conv_rhs => unfold selectClosest
    rw [← ih t_max]
    cases hobj : obj.hit r t_min t_max with
    | none =>
      dsimp only [selectCloser]
    | some rec₀ =>
      dsimp only
      have ho := (hittable_goodHit obj).1 _ _ _ _ hobj
      cases hrest : hitRec rest r t_min t_max with
      | none =>
        have hnone : hitRec rest r t_min ((rec₀.t : ℝ) : EReal) = none :=
          r3 _ _ _ _ (le_of_lt ho.2) hrest
        rw [hnone]
        dsimp only [selectCloser]
      | some b =>
        by_cases hbt : b.t < rec₀.t
        · have hsome : hitRec rest r t_min ((rec₀.t : ℝ) : EReal) = some b :=
            r2 _ _ _ _ _ (le_of_lt ho.2) hrest (EReal.coe_lt_coe_iff.mpr hbt)
          rw [hsome]
          dsimp only [selectCloser]
          rw [if_pos hbt]
        · have hnone : hitRec rest r t_min ((rec₀.t : ℝ) : EReal) = none :=
            r4 _ _ _ _ _ hrest (EReal.coe_le_coe_iff.mpr (not_lt.mp hbt))
          rw [hnone]
          dsimp only [selectCloser]
          rw [if_neg hbt]

/-- `HittableList::hit` of a one-element list is that member's hit. -/
theorem HittableList.hit_singleton (o : Hittable) (r : Ray) (t_min t_max : EReal) :
    HittableList.hit [o] r t_min t_max = o.hit r t_min t_max := by
  unfold HittableList.hit hitLoop
  cases ho : o.hit r t_min t_max with
  | some rec => rfl
  | none => rfl

/-- C2: `HittableList.hit` returns the hit with the smallest ray parameter
`t` among the member objects' individual hits in `(t_min, t_max)` (the
spec-side selector `selectClosest`), or `none` when no member is hit; in
particular, for two spheres hit by the same ray the record with the smaller
`t` is returned for either ordering of the two objects. -/
theorem hittableList_hit_closest (objs : List Hittable) (r : Ray) (t_min t_max : EReal) :
    HittableList.hit objs r t_min t_max =
      selectClosest (objs.map fun o => o.hit r t_min t_max) ∧
    ∀ (s₁ s₂ : Sphere) (rec₁ rec₂ : HitRecord),
      s₁.hit r t_min t_max = some rec₁ → s₂.hit r t_min t_max = some rec₂ →
      rec₁.t < rec₂.t →
      HittableList.hit [.sphere s₁, .sphere s₂] r t_min t_max = some rec₁ ∧
      HittableList.hit [.sphere s₂, .sphere s₁] r t_min t_max = some rec₁ := by
  constructor
  · rw [HittableList.hit_eq_hitRec]
    exact hitRec_eq_selectClosest r t_min objs t_max
  · intro s₁ s₂ rec₁ rec₂ h₁ h₂ hlt
    constructor
    · rw [HittableList.hit_eq_hitRec, hitRec_eq_selectClosest]
      simp only [List.map_cons, List.map_nil, Hittable.hit_sphere, h₁, h₂]
      simp only [selectClosest, selectCloser]
      rw [if_neg (not_lt.mpr (le_of_lt hlt))]
    · rw [HittableList.hit_eq_hitRec, hitRec_eq_selectClosest]
      simp only [List.map_cons, List.map_nil, Hittable.hit_sphere, h₁, h₂]
      simp only [selectClosest, selectCloser]
      rw [if_pos hlt]

/-- The diffuse material shared by the concrete witness spheres. -/
def mat₀ : Material := .lambertian ⟨0, 0, 0⟩

/-- Concrete unit sphere at the origin. -/
def sph₁ : Sphere := ⟨⟨0, 0, 0⟩, 1, mat₀⟩

/-- Concrete unit sphere centered at `(0,0,-3)`, behind `sph₁` as seen from
the witness ray. -/
def sph₂ : Sphere := ⟨⟨0, 0, -3⟩, 1, mat₀⟩

/-- Concrete witness ray from `(0,0,5)` towards `-z`. -/
def ray₀ : Ray := Ray.new ⟨0, 0, 5⟩ ⟨0, 0, -1⟩

/-- Concrete evaluation: the witness ray hits the unit sphere at `t = 4`,
point `(0,0,1)`, outward unit normal `(0,0,1)`. -/
theorem sph₁_hit :
    sph₁.hit ray₀ ((0 : ℝ) : EReal) ((100 : ℝ) : EReal) =
      some ⟨4, ⟨0, 0, 1⟩, ⟨0, 0, 1⟩, mat₀⟩ := by
  have hd : sph₁.disc ray₀ = 1 := by
    norm_num [Sphere.disc, Sphere.halfB, Sphere.aCoef, Sphere.cCoef, Sphere.oc,
      Vec3.dot, Vec3.sub_def, Ray.origin, Ray.direction, Ray.new, sph₁, ray₀]
  have hr1 : sph₁.root₁ ray₀ = 4 := by
    unfold Sphere.root₁
    rw [hd]
    norm_num [Sphere.halfB, Sphere.aCoef, Sphere.oc, Vec3.dot, Vec3.sub_def,
      Ray.origin, Ray.direction, Ray.new, sph₁, ray₀, Real.sqrt_one]
  unfold Sphere.hit
  rw [hd, hr1]
  rw [if_pos (by norm_num : (0 : ℝ) < 1)]
  have hcond : ((0 : ℝ) : EReal) < ((4 : ℝ) : EReal) ∧ ((4 : ℝ) : EReal) < ((100 : ℝ) : EReal) :=
    ⟨EReal.coe_lt_coe_iff.mpr (by norm_num), EReal.coe_lt_coe_iff.mpr (by norm_num)⟩
  rw [if_pos hcond]
  norm_num [Sphere.record, Ray.at', Vec3.add_def, Vec3.smul_def, Vec3.sub_def,
    Vec3.divScalar, ray₀, Ray.new, sph₁]

/-- Concrete evaluation: the witness ray hits `sph₂` at `t = 7`, point
`(0,0,-2)`, outward unit normal `(0,0,1)`. -/
theorem sph₂_hit :
    sph₂.hit ray₀ ((0 : ℝ) : EReal) ((100 : ℝ) : EReal) =
      some ⟨7, ⟨0, 0, -2⟩, ⟨0, 0, 1⟩, mat₀⟩ := by
  have hd : sph₂.disc ray₀ = 1 := by
    norm_num [Sphere.disc, Sphere.halfB, Sphere.aCoef, Sphere.cCoef, Sphere.oc,
      Vec3.dot, Vec3.sub_def, Ray.origin, Ray.direction, Ray.new, sph₂, ray₀]
  have hr1 : sph₂.root₁ ray₀ = 7 := by
    unfold Sphere.root₁
    rw [hd]
    norm_num [Sphere.halfB, Sphere.aCoef, Sphere.oc, Vec3.dot, Vec3.sub_def,
      Ray.origin, Ray.direction, Ray.new, sph₂, ray₀, Real.sqrt_one]
  unfold Sphere.hit
  rw [hd, hr1]
  rw [if_pos (by norm_num : (0 : ℝ) < 1)]
  have hcond : ((0 : ℝ) : EReal) < ((7 : ℝ) : EReal) ∧ ((7 : ℝ) : EReal) < ((100 : ℝ) : EReal) :=
    ⟨EReal.coe_lt_coe_iff.mpr (by norm_num), EReal.coe_lt_coe_iff.mpr (by norm_num)⟩
  rw [if_pos hcond]
  norm_num [Sphere.record, Ray.at', Vec3.add_def, Vec3.smul_def, Vec3.sub_def,
    Vec3.divScalar, ray₀, Ray.new, sph₂]

/-- Witness for C2: two overlapping spheres along the witness ray; the record
with the smaller `t` (the front sphere, `t = 4`) is returned for both
orderings of the list. -/
theorem hittableList_hit_closest_witness :
    HittableList.hit [.sphere sph₁, .sphere sph₂] ray₀ ((0 : ℝ) : EReal) ((100 : ℝ) : EReal) =
      some ⟨4, ⟨0, 0, 1⟩, ⟨0, 0, 1⟩, mat₀⟩ ∧
    HittableList.hit [.sphere sph₂, .sphere sph₁] ray₀ ((0 : ℝ) : EReal) ((100 : ℝ) : EReal) =
      some ⟨4, ⟨0, 0, 1⟩, ⟨0, 0, 1⟩, mat₀⟩ :=
  (hittableList_hit_closest [] ray₀ ((0 : ℝ) : EReal) ((100 : ℝ) : EReal)).2
    sph₁ sph₂ ⟨4, ⟨0, 0, 1⟩, ⟨0, 0, 1⟩, mat₀⟩ ⟨7, ⟨0, 0, -2⟩, ⟨0, 0, 1⟩, mat₀⟩
    sph₁_hit sph₂_hit (by norm_num)

/-- C1: full characterization of `Sphere.hit`. With `a = D·D`,
`half_b = (O-C)·D`, `c = |O-C|² - r²` and `discriminant = half_b² - a·c`:
when the discriminant is `≤ 0` (tangent hits included) there is no hit;
otherwise the smaller root `(-half_b - √disc)/a` is returned iff it lies
strictly inside `(t_min, t_max)`, else the larger root
`(-half_b + √disc)/a` under the same strict condition, else `none`; a
returned record carries `point = ray.at(root)` and
`normal = (point - center)/radius`, and a root exactly at `t_min` or `t_max`
is rejected by the strict comparisons. -/
theorem sphere_hit_characterization (s : Sphere) (r : Ray) (t_min t_max : EReal)
    (a half_b c disc root₁ root₂ : ℝ)
    (ha : a = Vec3.dot r.direction r.direction)
    (hb : half_b = Vec3.dot (r.origin - s.center) r.direction)
    (hc : c = Vec3.dot (r.origin - s.center) (r.origin - s.center) - s.radius * s.radius)
    (hd : disc = half_b * half_b - a * c)
    (h1 : root₁ = (-half_b - Real.sqrt disc) / a)
    (h2 : root₂ = (-half_b + Real.sqrt disc) / a) :
    (disc ≤ 0 → s.hit r t_min t_max = none) ∧
    (0 < disc →
      (t_min < ((root₁ : ℝ) : EReal) ∧ ((root₁ : ℝ) : EReal) < t_max →
        s.hit r t_min t_max = some ⟨root₁, r.at' root₁,
          (r.at' root₁ - s.center).divScalar s.radius, s.material⟩) ∧
      (¬(t_min < ((root₁ : ℝ) : EReal) ∧ ((root₁ : ℝ) : EReal) < t_max) →
        (t_min < ((root₂ : ℝ) : EReal) ∧ ((root₂ : ℝ) : EReal) < t_max →
          s.hit r t_min t_max = some ⟨root₂, r.at' root₂,
            (r.at' root₂ - s.center).divScalar s.radius, s.material⟩) ∧
        (¬(t_min < ((root₂ : ℝ) : EReal) ∧ ((root₂ : ℝ) : EReal) < t_max) →
          s.hit r t_min t_max = none))) := by
  have ha' : a = s.aCoef r := ha
  have hb' : half_b = s.halfB r := hb
  have hc' : c = s.cCoef r := hc
  have hd' : disc = s.disc r := by rw [hd, ha', hb', hc']; rfl
  have h1' : root₁ = s.root₁ r := by rw [h1, ha', hb', hd']; rfl
  have h2' : root₂ = s.root₂ r := by rw [h2, ha', hb', hd']; rfl
  rw [hd', h1', h2']
  unfold Sphere.hit
  constructor
  · intro hle
    rw [if_neg (not_lt.mpr hle)]
  · intro hpos
    rw [if_pos hpos]
    constructor
    · intro hin
      rw [if_pos hin]
      rfl
    · intro hout
      rw [if_neg hout]
      exact ⟨fun hin2 => by rw [if_pos hin2]; rfl, fun hout2 => by rw [if_neg hout2]⟩

/-- Witness for C1: the spec's own test vector — a unit sphere at the origin
hit by a ray from `(0,0,5)` towards `-z` is struck at `t = 5 - r = 4` with
point `(0,0,1)` and normal `(0,0,1)`. -/
theorem sphere_hit_characterization_witness :
    (0 : ℝ) < 1 ∧
    sph₁.hit ray₀ ((0 : ℝ) : EReal) ((100 : ℝ) : EReal) =
      some ⟨4, ray₀.at' 4, (ray₀.at' 4 - sph₁.center).divScalar sph₁.radius, sph₁.material⟩ := by
  have hdot : Vec3.dot (Ray.new (⟨0, 0, 5⟩ : Point3) ⟨0, 0, -1⟩).direction
      (Ray.new (⟨0, 0, 5⟩ : Point3) ⟨0, 0, -1⟩).direction = 1 := by
    norm_num [Vec3.dot, Ray.direction, Ray.new]
  have hchar := sphere_hit_characterization sph₁ ray₀ ((0 : ℝ) : EReal) ((100 : ℝ) : EReal)
    1 (-5) 24 1 4 6
    (by norm_num [Vec3.dot, Ray.direction, Ray.new, ray₀, sph₁])
    (by norm_num [Vec3.dot, Ray.direction, Ray.origin, Ray.new, ray₀, sph₁, Vec3.sub_def])
    (by norm_num [Vec3.dot, Ray.origin, Ray.new, ray₀, sph₁, Vec3.sub_def])
    (by norm_num)
    (by rw [Real.sqrt_one]; norm_num)
    (by rw [Real.sqrt_one]; norm_num)
  refine ⟨by norm_num, ?_⟩
  have happ := (hchar.2 (by norm_num)).1
    ⟨EReal.coe_lt_coe_iff.mpr (by norm_num), EReal.coe_lt_coe_iff.mpr (by norm_num)⟩
  exact happ

/-- C10: `HittableList.hit` of the empty list is `none` for every ray and all
bounds; and for every list of spheres, a returned record's ray parameter lies
strictly inside the originally requested open interval `(t_min, t_max)`. -/
theorem hittableList_hit_empty_and_bounds :
    (∀ (r : Ray) (t_min t_max : EReal), HittableList.hit [] r t_min t_max = none) ∧
    (∀ (spheres : List Sphere) (r : Ray) (t_min t_max : EReal) (rec : HitRecord),
      HittableList.hit (spheres.map .sphere) r t_min t_max = some rec →
      t_min < (rec.t : EReal) ∧ (rec.t : EReal) < t_max) := by
  constructor
  · intro r t_min t_max
    rfl
  · intro spheres r t_min t_max rec h
    rw [HittableList.hit_eq_hitRec] at h
    exact (hitRec_goodHit (spheres.map .sphere)).1 _ _ _ _ h

/-- Witness for C10: a singleton sphere list hit at `t = 4` with requested
interval `(0, 100)`; the returned parameter lies strictly inside it. -/
theorem hittableList_hit_empty_and_bounds_witness :
    ((0 : ℝ) : EReal) < ((4 : ℝ) : EReal) ∧ ((4 : ℝ) : EReal) < ((100 : ℝ) : EReal) :=
  hittableList_hit_empty_and_bounds.2 [sph₁] ray₀ ((0 : ℝ) : EReal) ((100 : ℝ) : EReal)
    ⟨4, ⟨0, 0, 1⟩, ⟨0, 0, 1⟩, mat₀⟩
    (by rw [List.map_cons, List.map_nil, HittableList.hit_singleton,
      Hittable.hit_sphere]; exact sph₁_hit)

/-- A concrete randomness source used to instantiate theorems: every
unit-sphere sample is the origin and every uniform draw is `0`. -/
def g₀ : Rng := ⟨fun _ => ⟨0, 0, 0⟩, fun _ => 0, 0, 0⟩

/-- Whatever branch `gridStep` takes, the generator's uniform stream itself
is unchanged (only the cursor advances). -/
theorem gridStep_unifSeq (a b : ℤ) (g : Rng) :
    (gridStep a b g).2.unifSeq = g.unifSeq := by
  unfold gridStep
  dsimp only [Rng.nextUnif]
  split_ifs <;> rfl

/-- Any small sphere emitted by `gridStep` passed the exclusion test: its
center is at distance strictly greater than `0.9` from `(4, 0.2, 0)`, and its
radius is `0.2`. -/
theorem gridStep_some_dist {a b : ℤ} {g g' : Rng} {s : Sphere}
    (h : gridStep a b g = (some s, g')) :
    0.9 < (s.center - (⟨4, 0.2, 0⟩ : Point3)).length ∧ s.radius = 0.2 := by
  unfold gridStep at h
  dsimp only [Rng.nextUnif] at h
  split_ifs at h with h1 h2 h3
  · simp only [Prod.mk.injEq] at h
    obtain ⟨hs, -⟩ := h
    cases hs
    exact ⟨h1, rfl⟩
  · simp only [Prod.mk.injEq] at h
    obtain ⟨hs, -⟩ := h
    cases hs
    exact ⟨h1, rfl⟩
  · simp only [Prod.mk.injEq] at h
    obtain ⟨hs, -⟩ := h
    cases hs
    exact ⟨h1, rfl⟩
  · simp only [Prod.mk.injEq] at h
    obtain ⟨hs, -⟩ := h
    exact absurd hs (by simp)

/-- Every sphere collected by the grid loop passed the exclusion test. -/
theorem buildGrid_dist :
    ∀ (cells : List (ℤ × ℤ)) (g : Rng) (s : Sphere), s ∈ (buildGrid cells g).1 →
      0.9 < (s.center - (⟨4, 0.2, 0⟩ : Point3)).length := by
  intro cells
  induction cells with
  | nil => intro g s hs; simp [buildGrid] at hs
  | cons c rest ih =>
    intro g s hs
    unfold buildGrid at hs
    dsimp only at hs
    rcases hstep : (gridStep c.1 c.2 g).1 with - | s₀
    · rw [hstep] at hs
      dsimp only at hs
      exact ih _ s hs
    · rw [hstep] at hs
      dsimp only at hs
      rcases List.mem_cons.mp hs with rfl | htail
      · have hpair : gridStep c.1 c.2 g = (some s, (gridStep c.1 c.2 g).2) := by
          rw [← hstep]
        exact (gridStep_some_dist hpair).1
      · exact ih _ s htail

/-- On a generator whose uniform stream is constantly `0`, the grid step for
cell `(a, b)` whose cell corner passes the exclusion test creates the diffuse
sphere of radius `0.2` centered at `(a, 0.2, b)` with albedo `(0,0,0)`, and
leaves the stream constantly `0`. -/
theorem gridStep_zero (a b : ℤ) (g : Rng) (hg : g.unifSeq = fun _ => 0)
    (hdist : 0.9 < ((⟨(a : ℝ), 0.2, (b : ℝ)⟩ - ⟨4, 0.2, 0⟩ : Vec3)).length) :
    (gridStep a b g).1 =
      some (Sphere.new ⟨(a : ℝ), 0.2, (b : ℝ)⟩ 0.2 (.lambertian ⟨0, 0, 0⟩)) := by
  unfold gridStep
  dsimp only [Rng.nextUnif]
  rw [hg]
  norm_num
  norm_num at hdist
  rw [if_pos hdist]

/-- Membership transport: a cell of the grid whose corner passes the
exclusion test contributes its sphere to the collected grid list, on the
constantly-zero uniform stream. -/
theorem buildGrid_mem :
    ∀ (cells : List (ℤ × ℤ)) (g : Rng), g.unifSeq = (fun _ => 0) →
      ∀ a b : ℤ, (a, b) ∈ cells →
      0.9 < ((⟨(a : ℝ), 0.2, (b : ℝ)⟩ - ⟨4, 0.2, 0⟩ : Vec3)).length →
      Sphere.new ⟨(a : ℝ), 0.2, (b : ℝ)⟩ 0.2 (.lambertian ⟨0, 0, 0⟩) ∈
        (buildGrid cells g).1 := by
  intro cells
  induction cells with
  | nil => intro g hg a b hmem; simp at hmem
  | cons c rest ih =>
    intro g hg a b hmem hdist
    unfold buildGrid
    dsimp only
    rcases List.mem_cons.mp hmem with rfl | htail
    · rw [gridStep_zero a b g hg hdist]
      exact List.mem_cons_self _ _
    · have hg' : (gridStep c.1 c.2 g).2.unifSeq = fun _ => 0 :=
        (gridStep_unifSeq c.1 c.2 g).trans hg
      have hmem' := ih (gridStep c.1 c.2 g).2 hg' a b htail hdist
      rcases (gridStep c.1 c.2 g).1 with - | s₀
      · exact hmem'
      · exact List.mem_cons_of_mem _ hmem'

/-- C8 (amended): for every sequence of random draws, every small sphere
(radius `0.2`) placed by `random_scene` has its center at distance strictly
greater than `0.9` from the single exclusion point `(4, 0.2, 0)` — the point
below the metal hero sphere; the other two hero locations are not avoided. -/
theorem random_scene_avoids_exclusion_point (g : Rng) (s : Sphere)
    (hmem : Hittable.sphere s ∈ random_scene g) (hrad : s.radius = 0.2) :
    0.9 < (s.center - (⟨4, 0.2, 0⟩ : Point3)).length := by
  unfold random_scene at hmem
  dsimp only at hmem
  rcases List.mem_cons.mp hmem with hground | hmem2
  · injection hground with hs
    subst hs
    norm_num [Sphere.new] at hrad
  · rcases List.mem_append.mp hmem2 with hgrid | hheroes
    · obtain ⟨s', hs', heq⟩ := List.mem_map.mp hgrid
      have hss : s' = s := by injection heq
      rw [← hss]
      exact buildGrid_dist gridCells g s' hs'
    · simp only [List.mem_cons, List.not_mem_nil, or_false] at hheroes
      rcases hheroes with h | h | h <;>
        · injection h with hs
          subst hs
          norm_num [Sphere.new] at hrad

/-- The corner grid cell `(0,0)` passes the code's exclusion test: its center
`(0, 0.2, 0)` is at distance `4 > 0.9` from `(4, 0.2, 0)`. -/
theorem corner_cell_dist :
    0.9 < ((⟨((0 : ℤ) : ℝ), 0.2, ((0 : ℤ) : ℝ)⟩ - ⟨4, 0.2, 0⟩ : Vec3)).length := by
  have hsqrt16 : Real.sqrt 16 = 4 := by
    rw [show (16 : ℝ) = 4 ^ 2 by norm_num, Real.sqrt_sq (by norm_num : (0 : ℝ) ≤ 4)]
  have hlen : ((⟨((0 : ℤ) : ℝ), 0.2, ((0 : ℤ) : ℝ)⟩ - ⟨4, 0.2, 0⟩ : Vec3)).length =
      Real.sqrt 16 := by
    norm_num [Vec3.length, Vec3.length_squared, Vec3.sub_def]
  rw [hlen, hsqrt16]
  norm_num

/-- On the constantly-zero draw sequence, grid cell `(0, 0)` contributes a
diffuse radius-`0.2` sphere centered at the origin-corner `(0, 0.2, 0)` to
the generated scene. -/
theorem zero_sphere_mem :
    Hittable.sphere
      (Sphere.new ⟨((0 : ℤ) : ℝ), 0.2, ((0 : ℤ) : ℝ)⟩ 0.2 (.lambertian ⟨0, 0, 0⟩)) ∈
      random_scene g₀ := by
  have hmem0 : ((0 : ℤ), (0 : ℤ)) ∈ gridCells := by decide
  have hg₀ : g₀.unifSeq = fun _ => 0 := rfl
  have hmemgrid := buildGrid_mem gridCells g₀ hg₀ 0 0 hmem0 corner_cell_dist
  unfold random_scene
  dsimp only
  exact List.mem_cons_of_mem _ (List.mem_append_left _ (List.mem_map_of_mem _ hmemgrid))

/-- Witness for C8 (amended): the grid sphere created at `(0, 0.2, 0)` on the
constantly-zero draw sequence indeed lies farther than `0.9` from the
exclusion point `(4, 0.2, 0)`. -/
theorem random_scene_avoids_exclusion_point_witness :
    0.9 < (((Sphere.new ⟨((0 : ℤ) : ℝ), 0.2, ((0 : ℤ) : ℝ)⟩ 0.2
      (.lambertian ⟨0, 0, 0⟩)).center) - (⟨4, 0.2, 0⟩ : Point3)).length :=
  random_scene_avoids_exclusion_point g₀ _ zero_sphere_mem rfl

/-- Counterexample for C8 as stated: on the constantly-zero draw sequence the
grid cell `(0, 0)` creates a small sphere centered at `(0, 0.2, 0)` — it
passes the code's only exclusion test (distance `4 > 0.9` from `(4, 0.2, 0)`)
yet lies at distance `0.8 ≤ 0.9` from the glass hero sphere location
`(0, 1, 0)`, so `random_scene` does not avoid all three hero locations. -/
theorem random_scene_avoid_heroes_counterexample :
    ¬ (∀ (g : Rng) (s : Sphere), Hittable.sphere s ∈ random_scene g → s.radius = 0.2 →
        ∀ hc ∈ heroCenters, 0.9 < (s.center - hc).length) := by
  intro hclaim
  have hfar := hclaim g₀ _ zero_sphere_mem rfl ⟨0, 1, 0⟩ (by simp [heroCenters])
  have hlen : ((Sphere.new ⟨((0 : ℤ) : ℝ), 0.2, ((0 : ℤ) : ℝ)⟩ 0.2
      (.lambertian ⟨0, 0, 0⟩)).center - (⟨0, 1, 0⟩ : Point3)).length = 0.8 := by
    have h64 : Real.sqrt 0.64 = 0.8 := by
      rw [show (0.64 : ℝ) = 0.8 ^ 2 by norm_num, Real.sqrt_sq (by norm_num : (0 : ℝ) ≤ 0.8)]
    have : ((Sphere.new ⟨((0 : ℤ) : ℝ), 0.2, ((0 : ℤ) : ℝ)⟩ 0.2
        (.lambertian ⟨0, 0, 0⟩)).center - (⟨0, 1, 0⟩ : Point3)).length = Real.sqrt 0.64 := by
      norm_num [Sphere.new, Vec3.length, Vec3.length_squared, Vec3.sub_def]
    rw [this, h64]
  rw [hlen] at hfar
  exact absurd hfar (by norm_num)

/-- C5: for every incoming ray, hit record and randomness source,
`Lambertian.scatter` returns `Some` (it never absorbs), the attenuation is
exactly the configured albedo, and the scattered ray starts at the hit point
towards `point + normal + random_point_in_unit_sphere() - point`. -/
theorem lambertian_always_scatters_albedo (albedo : Vec3) (ray_in : Ray)
    (rec : HitRecord) (g : Rng) :
    Material.scatter (.lambertian albedo) ray_in rec g =
      (some (albedo,
        Ray.new rec.point (rec.point + rec.normal + (random_in_unit_sphere g).1 - rec.point)),
        (random_in_unit_sphere g).2) := rfl

/-- C6: `Metal.scatter` returns `None` exactly when the fuzz-perturbed
reflected direction `d` has `dot d normal ≤ 0`; otherwise it returns `Some`
with attenuation the configured albedo and a scattered ray whose origin is
the hit point and whose direction is `d`. -/
theorem metal_scatter_none_iff (albedo : Vec3) (fuzz : ℝ) (ray_in : Ray)
    (rec : HitRecord) (g : Rng) :
    ((Material.scatter (.metal albedo fuzz) ray_in rec g).1 = none ↔
      Vec3.dot (reflect (Vec3.unit_vector ray_in.direction) rec.normal +
        fuzz • (random_in_unit_sphere g).1) rec.normal ≤ 0) ∧
    (0 < Vec3.dot (reflect (Vec3.unit_vector ray_in.direction) rec.normal +
        fuzz • (random_in_unit_sphere g).1) rec.normal →
      Material.scatter (.metal albedo fuzz) ray_in rec g =
        (some (albedo, Ray.new rec.point
          (reflect (Vec3.unit_vector ray_in.direction) rec.normal +
            fuzz • (random_in_unit_sphere g).1)),
          (random_in_unit_sphere g).2)) := by
  unfold Material.scatter Metal.scatter
  dsimp only [Ray.new, Ray.direction]
  split_ifs with h
  · exact ⟨iff_of_false (by simp) (not_le.mpr h), fun _ => rfl⟩
  · exact ⟨iff_of_true rfl (not_lt.mp h), fun h2 => absurd h2 h⟩

/-- C7: `Metal::new` clamps the fuzz parameter into `[0,1]`: fuzz `1.5`
builds the same material as fuzz `1.0`, fuzz `-0.3` the same as `0.0`, and in
general the stored fuzz is `max 0 (min 1 fuzziness)`. -/
theorem metal_new_clamps_fuzz (albedo : Vec3) :
    Metal.new albedo 1.5 = Metal.new albedo 1 ∧
    Metal.new albedo (-0.3) = Metal.new albedo 0 ∧
    ∀ fuzziness : ℝ, Metal.new albedo fuzziness =
      .metal albedo (max 0 (min 1 fuzziness)) := by
  refine ⟨?_, ?_, ?_⟩
  · unfold Metal.new; norm_num
  · unfold Metal.new; norm_num
  · intro f
    unfold Metal.new
    rcases lt_or_le f 1 with h | h
    · rw [if_pos h, min_eq_right h.le, max_comm]
    · rw [if_neg (not_lt.mpr h), min_eq_left h, max_eq_right zero_le_one]

/-- Witness for C6: a head-on ray reflected off a flat-normal hit with zero
fuzz has a scattered direction pointing along the normal, so the scatter is
accepted and returns the albedo and a ray out of the hit point. -/
theorem metal_scatter_none_iff_witness :
    0 < Vec3.dot (reflect (Vec3.unit_vector (Ray.new ⟨0, 0, 0⟩ ⟨0, 0, -1⟩).direction)
        (⟨0, 0, 1⟩ : Vec3) + (0 : ℝ) • (random_in_unit_sphere g₀).1) ⟨0, 0, 1⟩ ∧
    Material.scatter (.metal ⟨1, 1, 1⟩ 0) (Ray.new ⟨0, 0, 0⟩ ⟨0, 0, -1⟩)
        ⟨0, ⟨0, 0, 0⟩, ⟨0, 0, 1⟩, .metal ⟨1, 1, 1⟩ 0⟩ g₀ =
      (some (⟨1, 1, 1⟩, Ray.new ⟨0, 0, 0⟩
        (reflect (Vec3.unit_vector (Ray.new ⟨0, 0, 0⟩ ⟨0, 0, -1⟩).direction)
          (⟨0, 0, 1⟩ : Vec3) + (0 : ℝ) • (random_in_unit_sphere g₀).1)),
        (random_in_unit_sphere g₀).2) := by
  have h : 0 < Vec3.dot (reflect (Vec3.unit_vector (Ray.new ⟨0, 0, 0⟩ ⟨0, 0, -1⟩).direction)
      (⟨0, 0, 1⟩ : Vec3) + (0 : ℝ) • (random_in_unit_sphere g₀).1) ⟨0, 0, 1⟩ := by
    norm_num [Vec3.dot, reflect, Vec3.unit_vector, Vec3.divScalar, Vec3.length,
      Vec3.length_squared, Ray.direction, Ray.new, random_in_unit_sphere, Rng.nextSphere,
      g₀, Vec3.add_def, Vec3.sub_def, Vec3.smul_def, Real.sqrt_one]
  exact ⟨h, (metal_scatter_none_iff ⟨1, 1, 1⟩ 0 (Ray.new ⟨0, 0, 0⟩ ⟨0, 0, -1⟩)
    ⟨0, ⟨0, 0, 0⟩, ⟨0, 0, 1⟩, .metal ⟨1, 1, 1⟩ 0⟩ g₀).2 h⟩

/-- Helper for the dielectric claims: whenever the drawn uniform value is
below `1`, the transmit branch is only reached when `refract` succeeds, so
the scatter result is `some` with attenuation `(1,1,1)`; and under total
internal reflection the reflection probability is `1`, forcing the reflect
branch. -/
theorem dielectric_scatter_cases (ri : ℝ) (ray_in : Ray) (rec : HitRecord) (g : Rng)
    (hu : g.unifSeq g.uIdx < 1) :
    (∃ scattered, Dielectric.scatter ri ray_in rec g =
      (some (⟨1, 1, 1⟩, scattered), ⟨g.sphereSeq, g.unifSeq, g.sIdx, g.uIdx + 1⟩)) ∧
    (refract ray_in.direction (dielectricSetup ri ray_in rec).1
        (dielectricSetup ri ray_in rec).2.1 = none →
      Dielectric.scatter ri ray_in rec g =
        (some (⟨1, 1, 1⟩, Ray.new rec.point (reflect ray_in.direction rec.normal)),
          ⟨g.sphereSeq, g.unifSeq, g.sIdx, g.uIdx + 1⟩)) := by
  unfold Dielectric.scatter
  dsimp only [Rng.nextUnif]
  cases hr : refract ray_in.direction (dielectricSetup ri ray_in rec).1
      (dielectricSetup ri ray_in rec).2.1 with
  | none =>
    dsimp only
    rw [if_pos hu]
    exact ⟨⟨Ray.new rec.point (reflect ray_in.direction rec.normal), rfl⟩, fun _ => rfl⟩
  | some refracted =>
    dsimp only
    refine ⟨?_, fun hco => by simp at hco⟩
    split_ifs with h
    · exact ⟨Ray.new rec.point (reflect ray_in.direction rec.normal), rfl⟩
    · exact ⟨Ray.new rec.point refracted, rfl⟩

/-- C3: for every incoming ray, hit record and randomness source whose next
uniform draw lies in `[0,1)`, `Dielectric.scatter` returns `Some` with
attenuation exactly `(1,1,1)`; and when refraction is geometrically
impossible (`refract` returns `none`, total internal reflection) the
reflection probability is forced to `1`, so the returned scattered ray is the
reflected ray. -/
theorem dielectric_always_scatters (ri : ℝ) (ray_in : Ray) (rec : HitRecord) (g : Rng)
    (hu : g.unifSeq g.uIdx < 1) :
    (∃ scattered, (Material.scatter (.dielectric ri) ray_in rec g).1 =
      some (⟨1, 1, 1⟩, scattered)) ∧
    (refract ray_in.direction (dielectricSetup ri ray_in rec).1
        (dielectricSetup ri ray_in rec).2.1 = none →
      Material.scatter (.dielectric ri) ray_in rec g =
        (some (⟨1, 1, 1⟩, Ray.new rec.point (reflect ray_in.direction rec.normal)),
          ⟨g.sphereSeq, g.unifSeq, g.sIdx, g.uIdx + 1⟩)) := by
  obtain ⟨⟨sc, hsc⟩, htir⟩ := dielectric_scatter_cases ri ray_in rec g hu
  exact ⟨⟨sc, by rw [show Material.scatter (.dielectric ri) = Dielectric.scatter ri from rfl,
    hsc]⟩, htir⟩

/-- Witness for C3: at refractive index `1.5`, a head-on ray and a source
drawing `0`, the dielectric scatters with attenuation `(1,1,1)`. -/
theorem dielectric_always_scatters_witness :
    g₀.unifSeq g₀.uIdx < 1 ∧
    ∃ scattered, (Material.scatter (.dielectric 1.5) (Ray.new ⟨0, 0, 0⟩ ⟨0, 0, -1⟩)
      ⟨0, ⟨0, 0, 0⟩, ⟨0, 0, 1⟩, .dielectric 1.5⟩ g₀).1 = some (⟨1, 1, 1⟩, scattered) := by
  have hu : g₀.unifSeq g₀.uIdx < 1 := by norm_num [g₀]
  exact ⟨hu, (dielectric_always_scatters 1.5 (Ray.new ⟨0, 0, 0⟩ ⟨0, 0, -1⟩)
    ⟨0, ⟨0, 0, 0⟩, ⟨0, 0, 1⟩, .dielectric 1.5⟩ g₀ hu).1⟩

/-- C9: `Dielectric.scatter` never reaches the `unwrap` panic: whenever the
drawn uniform value lies in `[0,1)`, the transmit branch is taken only with
`reflect_prob < 1`, which requires the (deterministic) `refract` call to have
returned `Some`, so the modelled panic value `none` is never produced. -/
theorem dielectric_unwrap_unreachable (ri : ℝ) (ray_in : Ray) (rec : HitRecord) (g : Rng)
    (hu : g.unifSeq g.uIdx < 1) :
    (Material.scatter (.dielectric ri) ray_in rec g).1 ≠ none := by
  show (Dielectric.scatter ri ray_in rec g).1 ≠ none
  unfold Dielectric.scatter
  dsimp only [Rng.nextUnif]
  cases hr : refract ray_in.direction (dielectricSetup ri ray_in rec).1
      (dielectricSetup ri ray_in rec).2.1 with
  | none =>
    dsimp only
    rw [if_pos hu]
    simp
  | some refracted =>
    dsimp only
    split_ifs with h
    · simp
    · simp

/-- Helper for C4: `ray_color` at depth `depth` agrees with the fuel-indexed
variant run on `(50 - depth).toNat` units of fuel, so the recursion nesting
of a call at depth `depth` is bounded by `(50 - depth).toNat` (in particular
by 50 for an initial call at depth 0). -/
theorem ray_color_eq_fuel (ray : Ray) (world : List Hittable) (depth : ℤ) (g : Rng) :
    ray_color ray world depth g = rayColorFuel (50 - depth).toNat ray world depth g := by
  by_cases h : 50 ≤ depth
  · have h0 : (50 - depth).toNat = 0 := by omega
    rw [h0]
    unfold ray_color rayColorFuel
    rw [if_pos h]
  · have hs : (50 - depth).toNat = (50 - (depth + 1)).toNat + 1 := by omega
    rw [hs]
    unfold ray_color rayColorFuel
    rw [if_neg h, if_neg h]
    cases HittableList.hit world ray ((0.001 : ℝ) : EReal) ⊤ with
    | none => rfl
    | some rec =>
      dsimp only
      rcases Material.scatter rec.material ray rec g with ⟨o, g'⟩
      cases o with
      | none => rfl
      | some ar =>
        rcases ar with ⟨att, sc⟩
        dsimp only
        rw [ray_color_eq_fuel sc world (depth + 1) g']
termination_by (50 - depth).toNat
decreasing_by omega

/-- C4: `ray_color` called with `depth ≥ 50` returns black `(0,0,0)` and the
unchanged generator, for every ray, scene and randomness source — the scene
is never queried since the result does not depend on it; and the recursion
(each scatter recursing at `depth + 1`) coincides with the fuel-indexed
variant on `(50 - depth).toNat` units of fuel, so the nesting depth of a call
starting at depth 0 never exceeds 50. -/
theorem ray_color_depth_cutoff :
    (∀ (ray : Ray) (world : List Hittable) (depth : ℤ) (g : Rng),
      50 ≤ depth → ray_color ray world depth g = (BLACK, g)) ∧
    (∀ (ray : Ray) (world : List Hittable) (depth : ℤ) (g : Rng),
      ray_color ray world depth g = rayColorFuel (50 - depth).toNat ray world depth g) := by
  constructor
  · intro ray world depth g h
    unfold ray_color
    rw [if_pos h]
  · intro ray world depth g
    exact ray_color_eq_fuel ray world depth g

/-- Witness for C4: at depth exactly 50 the renderer returns black without
consuming randomness, for a concrete ray, the empty scene and the concrete
source `g₀`. -/
theorem ray_color_depth_cutoff_witness :
    (50 : ℤ) ≤ 50 ∧
    ray_color (Ray.new ⟨0, 0, 0⟩ ⟨0, 0, 1⟩) [] 50 g₀ = (BLACK, g₀) :=
  ⟨le_refl 50, ray_color_depth_cutoff.1 (Ray.new ⟨0, 0, 0⟩ ⟨0, 0, 1⟩) [] 50 g₀ (le_refl 50)⟩

/-- Witness for C9: concrete instantiation of the no-panic theorem. -/
theorem dielectric_unwrap_unreachable_witness :
    g₀.unifSeq g₀.uIdx < 1 ∧
    (Material.scatter (.dielectric 1.5) (Ray.new ⟨0, 0, 0⟩ ⟨0, 0, -1⟩)
      ⟨0, ⟨0, 0, 0⟩, ⟨0, 0, 1⟩, .dielectric 1.5⟩ g₀).1 ≠ none := by
  have hu : g₀.unifSeq g₀.uIdx < 1 := by norm_num [g₀]
  exact ⟨hu, dielectric_unwrap_unreachable 1.5 (Ray.new ⟨0, 0, 0⟩ ⟨0, 0, -1⟩)
    ⟨0, ⟨0, 0, 0⟩, ⟨0, 0, 1⟩, .dielectric 1.5⟩ g₀ hu⟩

end RT
